import Mathlib

/-!
# Distributed-trace propagation between two Lambda handlers

Shallow embedding of the two Go programs of the repository:

* `src/go/main.go`  (the calling function, namespace `Caller`)
* `src/go1/main.go` (the called function, namespace `Callee`)

The handlers are straight-line glue around library calls.  Every library call
that is observable from outside the handler is recorded as an `Effect`, in
program order; the handler itself is a value of type `Exec`, holding the
effects and either the returned pair or the reason the process stopped.

Library behaviour the handlers depend on is modelled next to them:

* `net/http.Header` (`Get`, `Set`, key canonicalisation) in namespace `Http`;
* `encoding/json` on the request struct in namespace `Json`, at the level of the
  JSON document (a tree), not of its bytes.  Go strings are taken to be valid
  UTF-8, the strings a Lean `String` holds.
-/

set_option autoImplicit false

/-! ## net/http: header maps -/

namespace Http

/-- A Go `[]string`.  `none` is the nil slice; it has length 0 like `some []`. -/
abbrev StringSlice := Option (List String)

/-- The elements of a slice (`len` and indexing do not tell nil from empty). -/
def elems : StringSlice → List String
  | none => []
  | some xs => xs

/-- A non-nil Go `map[string][]string`, as an association list read by first match. -/
abbrev HeaderMap := List (String × StringSlice)

/-- Go `http.Header`, a `map[string][]string`.  `none` is the nil map. -/
abbrev Header := Option HeaderMap

/-- Go `m[k]`: the stored slice, or the zero value (nil slice) when `k` is absent. -/
def index (m : HeaderMap) (k : String) : StringSlice :=
  (m.lookup k).getD none

/-- Go `m[k] = v` on a non-nil map. -/
def assign (m : HeaderMap) (k : String) (v : StringSlice) : HeaderMap :=
  (k, v) :: m.filter (fun e => e.1 != k)

/-- The byte test `validHeaderFieldByte` of `net/textproto`: RFC 7230 token characters. -/
def validHeaderFieldByte (c : Char) : Bool :=
  let n := c.toNat
  (48 ≤ n && n ≤ 57) || (65 ≤ n && n ≤ 90) || (97 ≤ n && n ≤ 122) ||
    n == 33 || n == 35 || n == 36 || n == 37 || n == 38 || n == 39 || n == 42 ||
    n == 43 || n == 45 || n == 46 || n == 94 || n == 95 || n == 96 || n == 124 || n == 126

def isLower (c : Char) : Bool := 97 ≤ c.toNat && c.toNat ≤ 122

def isUpper (c : Char) : Bool := 65 ≤ c.toNat && c.toNat ≤ 90

/-- The rewriting loop of `canonicalMIMEHeaderKey`: upper case at the start and after
each dash, lower case elsewhere. -/
def canonLoop : Bool → List Char → List Char
  | _, [] => []
  | upper, c :: cs =>
    let c1 : Char :=
      if upper && isLower c then Char.ofNat (c.toNat - 32)
      else if !upper && isUpper c then Char.ofNat (c.toNat + 32)
      else c
    c1 :: canonLoop (c1 == '-') cs

/-- The function `canonicalMIMEHeaderKey` of `net/textproto`: a key holding a byte that is
not a token character is returned unchanged. -/
def canonicalMIMEHeaderKey (a : List Char) : List Char :=
  if a.all validHeaderFieldByte then canonLoop true a else a

/-- The quick check at the head of `CanonicalMIMEHeaderKey`: `none` when the scan ends the
call with the key unchanged, `some ()` when it hands over to `canonicalMIMEHeaderKey`. -/
def quickCheck : Bool → List Char → Option Unit
  | _, [] => none
  | upper, c :: cs =>
    if !validHeaderFieldByte c then none
    else if upper && isLower c then some ()
    else if !upper && isUpper c then some ()
    else quickCheck (c == '-') cs

/-- Go `textproto.CanonicalMIMEHeaderKey`. -/
def CanonicalMIMEHeaderKey (s : String) : String :=
  match quickCheck true s.data with
  | none => s
  | some _ => String.mk (canonicalMIMEHeaderKey s.data)

/-- Go `Header.Get`: the first value stored under the canonical form of `key`, or `""`;
a nil header yields `""`. -/
def Get (h : Header) (key : String) : String :=
  match h with
  | none => ""
  | some m =>
    match elems (index m (CanonicalMIMEHeaderKey key)) with
    | [] => ""
    | v :: _ => v

/-- Go `Header.Set` on a non-nil header: the canonical form of `key` is bound to the
one-element slice holding `value`, replacing what was stored. -/
def Set (m : HeaderMap) (key value : String) : HeaderMap :=
  assign m (CanonicalMIMEHeaderKey key) (some [value])

/-- Go `Header.Values`: every value stored under the canonical form of `key`, in order. -/
def Values (h : Header) (key : String) : List String :=
  match h with
  | none => []
  | some m => elems (index m (CanonicalMIMEHeaderKey key))

end Http

/-! ## newrelic: the constants and the transaction handle -/

namespace newrelic

/-- The constant `DistributedTraceW3CTraceParentHeader` of the agent. -/
def DistributedTraceW3CTraceParentHeader : String := "Traceparent"

/-- The constant `DistributedTraceW3CTraceStateHeader` of the agent. -/
def DistributedTraceW3CTraceStateHeader : String := "Tracestate"

/-- The transport type constants of the agent; the callee passes `TransportOther`. -/
inductive TransportType where
  | TransportUnknown
  | TransportHTTP
  | TransportOther
  deriving DecidableEq, Repr

/-- A live transaction, as far as the handlers use it.  `insert` is what
`InsertDistributedTraceHeaders` does to the (non-nil) header map it is handed: the agent
decides which entries it writes. -/
structure Transaction where
  insert : Http.HeaderMap → Http.HeaderMap

/-- The invocation context: `newrelic.FromContext` finds a transaction in it or nil. -/
structure Context where
  txn : Option Transaction

/-- Go `newrelic.FromContext`. -/
def FromContext (ctx : Context) : Option Transaction := ctx.txn

/-- The application handle created at cold start. -/
structure Application where
  name : String
  deriving DecidableEq, Repr

/-- What `newrelic.NewApplication` hands back: the application (nil on failure) and the error. -/
structure NewApplicationResult where
  app : Option Application
  err : Option String

/-- The steps of `main` seen from outside: a line printed, and the call of
`nrlambda.Start` that registers the handler and serves invocations. -/
inductive Startup where
  | Println (line : String)
  | Start (app : Option Application)
  deriving DecidableEq, Repr

end newrelic

/-! ## encoding/json on the request struct -/

/-- A JSON document.  Number literals written as integers are `int`; every other number
literal (fraction, exponent) is `float`, kept as written. -/
inductive Json where
  | null
  | bool (b : Bool)
  | int (n : Int)
  | float (lit : String)
  | str (s : String)
  | arr (items : List Json)
  | obj (members : List (String × Json))

/-- The struct `getItemsRequest` of `src/go/main.go`.  It has no field tags: the JSON keys
are the field names. -/
structure Caller.getItemsRequest where
  SortBy : String
  SortOrder : String
  ItemsToGet : Int
  DistributedTracePayload : Http.Header

/-- The struct `getItemsRequest` of `src/go1/main.go`.  Each field tag repeats the field
name, so the JSON keys are the field names here too. -/
structure Callee.getItemsRequest where
  SortBy : String
  SortOrder : String
  ItemsToGet : Int
  DistributedTracePayload : Http.Header

namespace Json

open Http

/-- The keys of a map in the order `json.Marshal` writes them: each once, sorted
(lexicographically by character, which is the order of the UTF-8 bytes). -/
def sortedKeys (m : HeaderMap) : List String :=
  ((m.map Prod.fst).dedup).insertionSort (fun a b => a.data ≤ b.data)

/-- Encoding of a `[]string`: `null` for the nil slice, else an array of strings. -/
def encodeSlice : StringSlice → Json
  | none => .null
  | some xs => .arr (xs.map .str)

/-- Encoding of an `http.Header`: `null` for the nil map, else an object with one member
per key, holding an array. -/
def encodeHeader : Header → Json
  | none => .null
  | some m => .obj ((sortedKeys m).map (fun k => (k, encodeSlice (index m k))))

/-- Go `json.Marshal` on the caller's `getItemsRequest`: an object with one member per
field, in declaration order.  For these field types the encoder has no failing case. -/
def Marshal (r : Caller.getItemsRequest) : Except String Json :=
  .ok (.obj [("SortBy", .str r.SortBy), ("SortOrder", .str r.SortOrder),
    ("ItemsToGet", .int r.ItemsToGet),
    ("DistributedTracePayload", encodeHeader r.DistributedTracePayload)])

/-- Decoding into a `string` that holds `cur`: `null` leaves it alone. -/
def decodeString (cur : String) : Json → Except String String
  | .null => .ok cur
  | .str s => .ok s
  | _ => .error "json: cannot unmarshal into Go value of type string"

/-- Decoding into an `int` (64 bits) that holds `cur`. -/
def decodeInt (cur : Int) : Json → Except String Int
  | .null => .ok cur
  | .int n =>
    if -(2 : Int) ^ 63 ≤ n ∧ n < (2 : Int) ^ 63 then .ok n
    else .error "json: cannot unmarshal number into Go value of type int"
  | _ => .error "json: cannot unmarshal into Go value of type int"

/-- Decoding the elements of an array into fresh `string` elements. -/
def decodeElems : List Json → Except String (List String)
  | [] => .ok []
  | j :: js =>
    match decodeString "" j with
    | .error e => .error e
    | .ok s =>
      match decodeElems js with
      | .error e => .error e
      | .ok ss => .ok (s :: ss)

/-- Decoding into a fresh `[]string` (a map element). -/
def decodeSlice : Json → Except String StringSlice
  | .null => .ok none
  | .arr items =>
    match decodeElems items with
    | .error e => .error e
    | .ok ss => .ok (some ss)
  | _ => .error "json: cannot unmarshal into Go value of type []string"

/-- Decoding the members of an object into a map: each member is decoded into a fresh
element and stored under its key as written, a later member replacing an earlier one. -/
def decodeMembers (m : HeaderMap) : List (String × Json) → Except String HeaderMap
  | [] => .ok m
  | (k, j) :: rest =>
    match decodeSlice j with
    | .error e => .error e
    | .ok v => decodeMembers (assign m k v) rest

/-- Decoding into an `http.Header` that holds `cur`: `null` stores the nil map, an object
is decoded into the map held (a nil map is allocated first). -/
def decodeHeader (cur : Header) : Json → Except String Header
  | .null => .ok none
  | .obj members =>
    match decodeMembers (cur.getD []) members with
    | .error e => .error e
    | .ok m => .ok (some m)
  | _ => .error "json: cannot unmarshal into Go value of type http.Header"

/-- The case folding of an object key used to find the struct field: ASCII letters to
upper case, and the two letters outside ASCII whose fold is an ASCII letter (the Kelvin
sign and the long s).  Other characters cannot take part in a match with the field names. -/
def foldChar (c : Char) : Char :=
  if isLower c then Char.ofNat (c.toNat - 32)
  else if c.toNat = 0x212A then 'K'
  else if c.toNat = 0x17F then 'S'
  else c

def foldName (s : String) : String := String.mk (s.data.map foldChar)

/-- Decoding one object member into the struct: the member goes to the field whose name
equals the key up to case; a key that matches no field is skipped. -/
def decodeField (r : Callee.getItemsRequest) (key : String) (j : Json) :
    Except String Callee.getItemsRequest :=
  if foldName key = foldName "SortBy" then
    match decodeString r.SortBy j with
    | .error e => .error e
    | .ok s => .ok { r with SortBy := s }
  else if foldName key = foldName "SortOrder" then
    match decodeString r.SortOrder j with
    | .error e => .error e
    | .ok s => .ok { r with SortOrder := s }
  else if foldName key = foldName "ItemsToGet" then
    match decodeInt r.ItemsToGet j with
    | .error e => .error e
    | .ok n => .ok { r with ItemsToGet := n }
  else if foldName key = foldName "DistributedTracePayload" then
    match decodeHeader r.DistributedTracePayload j with
    | .error e => .error e
    | .ok h => .ok { r with DistributedTracePayload := h }
  else .ok r

/-- Decoding the members of the top-level object, in the order written. -/
def decodeFields (r : Callee.getItemsRequest) :
    List (String × Json) → Except String Callee.getItemsRequest
  | [] => .ok r
  | (k, j) :: rest =>
    match decodeField r k j with
    | .error e => .error e
    | .ok r1 => decodeFields r1 rest

/-- The value of the member `key` of an object (the first one, if the key is repeated). -/
def member (key : String) : Json → Option Json
  | .obj members => members.lookup key
  | _ => none

/-- Go `json.Unmarshal` of a document into a zero `getItemsRequest` of the callee, as the
Lambda runtime does before it calls the handler. -/
def Unmarshal (doc : Json) : Except String Callee.getItemsRequest :=
  let zero : Callee.getItemsRequest := ⟨"", "", 0, none⟩
  match doc with
  | .null => .ok zero
  | .obj members => decodeFields zero members
  | _ => .error "json: cannot unmarshal into Go value of type main.getItemsRequest"

end Json

/-! ## Effects and executions -/

/-- The argument of a log call: a text, or a header set printed as it stands. -/
inductive LogArg where
  | text (s : String)
  | headers (h : Http.HeaderMap)

/-- The value of a custom attribute (`interface{}` in Go): the handlers pass a string or an int. -/
inductive AttrValue where
  | str (s : String)
  | int (n : Int)

/-- The fields of `lambda.InvokeInput` the caller fills in. -/
structure InvokeInput where
  ClientContext : String
  FunctionName : String
  InvocationType : String
  LogType : String
  Payload : Json

/-- The library calls of the two handlers that act outside the handler. -/
inductive Effect where
  | RecordCustomEvent (eventType : String) (params : List (String × String))
  | NewSession
  | InstrumentHandlers
  | Info (arg : LogArg)
  | InsertDistributedTraceHeaders (hdrs : Http.HeaderMap)
  | Println (line : String)
  | InvokeRequest (input : InvokeInput)
  | Send (input : InvokeInput)
  | AddAttribute (key : String) (value : AttrValue)
  | AcceptDistributedTraceHeaders (t : newrelic.TransportType) (hdrs : Http.Header)
  | StartSegment (name : String)
  | Sleep (seconds : Nat)
  | SegmentEnd (name : String)

/-- The ways a handler stops without returning. -/
inductive Halt where
  | exit (code : Int)
  | panic (msg : String)

/-- An execution: the effects in program order, and the value reached or the halt. -/
structure Exec (α : Type) where
  effects : List Effect
  result : Except Halt α

namespace Exec

def pure {α : Type} (a : α) : Exec α := ⟨[], .ok a⟩

def bind {α β : Type} (x : Exec α) (f : α → Exec β) : Exec β :=
  match x.result with
  | .error h => ⟨x.effects, .error h⟩
  | .ok a => ⟨x.effects ++ (f a).effects, (f a).result⟩

instance : Monad Exec where
  pure := Exec.pure
  bind := Exec.bind

/-- Perform one library call. -/
def emit (e : Effect) : Exec Unit := ⟨[e], .ok ()⟩

/-- Stop the process. -/
def halt {α : Type} (h : Halt) : Exec α := ⟨[], .error h⟩

end Exec

/-- The attributes added to the transaction, in order. -/
def attributes : List Effect → List (String × AttrValue)
  | [] => []
  | .AddAttribute k v :: es => (k, v) :: attributes es
  | _ :: es => attributes es

/-- The log entries written (logger and standard output), in order. -/
def logEntries : List Effect → List LogArg
  | [] => []
  | .Info a :: es => a :: logEntries es
  | .Println s :: es => .text s :: logEntries es
  | _ :: es => logEntries es

/-- The invocations sent downstream, in order. -/
def sent : List Effect → List InvokeInput
  | [] => []
  | .Send i :: es => i :: sent es
  | _ :: es => sent es

/-- The header sets handed to `AcceptDistributedTraceHeaders`, in order. -/
def accepted : List Effect → List Http.Header
  | [] => []
  | .AcceptDistributedTraceHeaders _ h :: es => h :: accepted es
  | _ :: es => accepted es

/-- The effect is a call of `AcceptDistributedTraceHeaders`. -/
def isAccept : Effect → Bool
  | .AcceptDistributedTraceHeaders _ _ => true
  | _ => false

/-- The effect is a call of `StartSegment`. -/
def isStartSegment : Effect → Bool
  | .StartSegment _ => true
  | _ => false

/-- The effect is the emission of the trace headers. -/
def isInsert : Effect → Bool
  | .InsertDistributedTraceHeaders _ => true
  | _ => false

/-- The effect is the dispatch of the downstream invocation. -/
def isSend : Effect → Bool
  | .Send _ => true
  | _ => false

/-! ## src/go/main.go: the calling function -/

namespace Caller

open Http newrelic Exec

/-- What the surroundings answer during one invocation of the caller. -/
structure Env where
  /-- The error of `session.NewSessionWithOptions`, if any. -/
  sessionErr : Option String
  /-- The error of `req.Send()`, if any. -/
  sendErr : Option String
  /-- The status code in the response once `Send` has succeeded. -/
  statusCode : Int

/-- The handler of `src/go/main.go`, statement by statement, with the encoder as a
parameter so that the branch for an encoding error can be entered.  Calls that only build
a local value (`logrus.New`, `lambda.New`, `RequestWithTransactionContext`) leave no effect.
`env` holds the answers of the surroundings; Go's `handler` takes `ctx` alone. -/
def handlerWith (marshal : getItemsRequest → Except String Json) (env : Env) (ctx : Context) :
    Exec (String × Option String) := do
  match FromContext ctx with
  | some txn =>
    emit (.RecordCustomEvent "MyGoEvent" [("zip", "zap")])
    -- session.Must panics when the session cannot be built
    emit .NewSession
    match env.sessionErr with
    | some err => halt (.panic err)
    | none => Pure.pure ()
    emit .InstrumentHandlers
    emit (.Info (.text "Inserting Distributed Trace headers for context propagation"))
    let hdrs : HeaderMap := []
    emit (.InsertDistributedTraceHeaders hdrs)
    let hdrs := txn.insert hdrs
    emit (.Info (.headers hdrs))
    let request : getItemsRequest := ⟨"time", "descending", 10, some hdrs⟩
    match marshal request with
    | .error _ =>
      emit (.Println "Error marshalling MyGetItemsFunction request")
      halt (.exit 0)
    | .ok payload =>
      emit (.Info (.text "Invoking lambda function: newrelic-example-go1"))
      let input : InvokeInput :=
        ⟨"newrelic-example-go", "newrelic-example-go1", "Event", "Tail", payload⟩
      emit (.InvokeRequest input)
      emit (.Send input)
      match env.sendErr with
      | none =>
        emit (.Info (.text ("Request Complete, Got StatusCode: " ++ toString env.statusCode)))
      | some _ => Pure.pure ()
      emit (.AddAttribute "customAttribute" (.str "customAttributeValue"))
  | none => Pure.pure ()
  return ("Success!", none)

/-- The handler of `src/go/main.go`: `handlerWith` at `json.Marshal`. -/
def handler (env : Env) (ctx : Context) : Exec (String × Option String) :=
  handlerWith Json.Marshal env ctx

/-- The function `main` of `src/go/main.go`: create the application, print the error if
there is one, then start the Lambda handler. -/
def main (r : NewApplicationResult) : List Startup :=
  (match r.err with
   | some e => [.Println ("error creating app (invalid config): " ++ e)]
   | none => []) ++
  [.Start r.app]

end Caller

/-! ## src/go1/main.go: the called function -/

namespace Callee

open Http newrelic Exec

/-- The handler of `src/go1/main.go`, statement by statement.  The header set `hdrs` is
the non-nil `http.Header{}`; the inbound `items.DistributedTracePayload` may be nil. -/
def handler (ctx : Context) (items : getItemsRequest) : Exec (String × Option String) := do
  match FromContext ctx with
  | some txn =>
    emit (.RecordCustomEvent "MyGoEvent" [("zip", "zap")])
    let hdrs : HeaderMap := []
    let hdrs := Http.Set hdrs DistributedTraceW3CTraceParentHeader
      (Get items.DistributedTracePayload "Traceparent")
    let hdrs := Http.Set hdrs DistributedTraceW3CTraceStateHeader
      (Get items.DistributedTracePayload "Tracestate")
    emit (.AcceptDistributedTraceHeaders .TransportOther (some hdrs))
    emit (.Info (.text "Accepted Distributed Tracing Payload"))
    emit (.StartSegment "goToSleep")
    emit (.Info (.text "Going to sleep....yawn"))
    emit (.Sleep 1)
    emit (.Info (.text "Woke up....yawn"))
    emit (.SegmentEnd "goToSleep")
    emit (.InsertDistributedTraceHeaders hdrs)
    let _hdrs := txn.insert hdrs
    emit (.AddAttribute "ItemsToGet" (.int items.ItemsToGet))
  | none => Pure.pure ()
  return ("Success!", none)

/-- The function `main` of `src/go1/main.go`: create the application, print the error if
there is one, then start the Lambda handler. -/
def main (r : NewApplicationResult) : List Startup :=
  (match r.err with
   | some e => [.Println ("error creating app (invalid config): " ++ e)]
   | none => []) ++
  [.Start r.app]

end Callee

/-! ## Names for the values the handlers build -/

/-- The header set the callee builds from the two values it reads. -/
def Http.acceptedHeaders (tp ts : String) : Http.HeaderMap :=
  Http.Set (Http.Set [] newrelic.DistributedTraceW3CTraceParentHeader tp)
    newrelic.DistributedTraceW3CTraceStateHeader ts

/-- The request the caller builds around the emitted header set. -/
def Caller.builtRequest (txn : newrelic.Transaction) : Caller.getItemsRequest :=
  ⟨"time", "descending", 10, some (txn.insert [])⟩

/-- The invocation input the caller builds around a payload. -/
def Caller.builtInput (payload : Json) : InvokeInput :=
  ⟨"newrelic-example-go", "newrelic-example-go1", "Event", "Tail", payload⟩

/-- The document `json.Marshal` produces for the request the caller builds. -/
def Caller.builtPayload (txn : newrelic.Transaction) : Json :=
  .obj [("SortBy", .str "time"), ("SortOrder", .str "descending"), ("ItemsToGet", .int 10),
    ("DistributedTracePayload", Json.encodeHeader (some (txn.insert [])))]

/-- The payload shape as the interface description words it: an object with the four
members, the last an object whose every value is a string. -/
def specPayloadShape (doc : Json) : Prop :=
  ∃ ms : List (String × Json),
    doc = .obj [("SortBy", .str "time"), ("SortOrder", .str "descending"),
      ("ItemsToGet", .int 10), ("DistributedTracePayload", .obj ms)] ∧
    ∀ kv ∈ ms, ∃ s : String, kv.2 = .str s


/-- An inbound request whose payload holds two `Tracestate` values. -/
def twoStateRequest : Callee.getItemsRequest :=
  ⟨"time", "descending", 10,
    some [("Traceparent", some ["00-0af7651916cd43dd8448eb211c80319c-b7ad6b7169203331-01"]),
      ("Tracestate", some ["congo=t61rcWkgMzE", "rojo=00f067aa0ba902b7"])]⟩

/-! ## Sample data for the concrete instances -/

/-- A transaction whose emission writes one W3C trace-parent and one trace-state entry. -/
def sampleTxn : newrelic.Transaction :=
  ⟨fun m => Http.Set (Http.Set m "Traceparent"
      "00-0af7651916cd43dd8448eb211c80319c-b7ad6b7169203331-01")
    "Tracestate" "190@nr=0-0-1-2-b7ad6b7169203331"⟩

/-- A transaction whose emission writes nothing (distributed tracing switched off). -/
def silentTxn : newrelic.Transaction := ⟨fun m => m⟩

/-! ## Lemmas on header maps -/

namespace Http

theorem lookup_filter_ne (m : HeaderMap) (k k1 : String) (h : k1 ≠ k) :
    List.lookup k1 (m.filter (fun e => e.1 != k)) = List.lookup k1 m := by
  induction m with
  | nil => rfl
  | cons e m ih =>
    obtain ⟨a, v⟩ := e
    by_cases hak : a = k
    · subst hak
      have h1 : (k1 == a) = false := by simpa using h
      simp [List.filter_cons, List.lookup_cons, h1, ih]
    · have h2 : (a != k) = true := by simpa using hak
      simp only [List.filter_cons, h2, if_true, List.lookup_cons, ih]

theorem index_assign (m : HeaderMap) (k k1 : String) (v : StringSlice) :
    index (assign m k v) k1 = if k1 = k then v else index m k1 := by
  unfold index assign
  by_cases h : k1 = k
  · subst h
    simp
  · have h1 : (k1 == k) = false := by simpa using h
    simp [List.lookup_cons, h1, h, lookup_filter_ne m k k1 h]

theorem index_of_not_mem (m : HeaderMap) (k : String) (h : k ∉ m.map Prod.fst) :
    index m k = none := by
  unfold index
  have : List.lookup k m = none := by
    rw [List.lookup_eq_none_iff]
    intro p hp
    have hk : p.1 ∈ m.map Prod.fst := List.mem_map_of_mem _ hp
    simp only [bne_iff_ne, ne_eq]
    intro hkp
    exact h (hkp ▸ hk)
  simp [this]

end Http

/-! ## Lemmas on the JSON round trip -/

namespace Json

open Http

theorem mem_sortedKeys (m : HeaderMap) (k : String) :
    k ∈ sortedKeys m ↔ k ∈ m.map Prod.fst := by
  unfold sortedKeys
  rw [(List.perm_insertionSort _ _).mem_iff, List.mem_dedup]

theorem decodeElems_map_str (xs : List String) :
    decodeElems (xs.map Json.str) = .ok xs := by
  induction xs with
  | nil => rfl
  | cons x xs ih => simp [decodeElems, decodeString, ih]

theorem decodeSlice_encodeSlice (v : StringSlice) : decodeSlice (encodeSlice v) = .ok v := by
  cases v with
  | none => rfl
  | some xs => simp [encodeSlice, decodeSlice, decodeElems_map_str]

theorem decodeMembers_encoded (f : String → StringSlice) (ks : List String) (m0 : HeaderMap) :
    decodeMembers m0 (ks.map (fun k => (k, encodeSlice (f k)))) =
      .ok (ks.foldl (fun m k => assign m k (f k)) m0) := by
  induction ks generalizing m0 with
  | nil => rfl
  | cons k ks ih => simp [decodeMembers, decodeSlice_encodeSlice, ih]

theorem index_foldl_assign (f : String → StringSlice) (ks : List String) (m0 : HeaderMap)
    (k1 : String) :
    index (ks.foldl (fun m k => assign m k (f k)) m0) k1 =
      if k1 ∈ ks then f k1 else index m0 k1 := by
  induction ks generalizing m0 with
  | nil => simp
  | cons k ks ih =>
    rw [List.foldl_cons, ih, index_assign]
    by_cases h1 : k1 ∈ ks
    · simp [h1]
    · by_cases h2 : k1 = k
      · subst h2; simp
      · simp [h1, h2]

/-- Decoding the encoding of a header set gives a header set with the same binding for
every key. -/
theorem decodeHeader_encodeHeader (m : HeaderMap) :
    ∃ m1, decodeHeader none (encodeHeader (some m)) = .ok (some m1) ∧
      ∀ k, index m1 k = index m k := by
  refine ⟨(sortedKeys m).foldl (fun m1 k => assign m1 k (index m k)) [], ?_, ?_⟩
  · simp [encodeHeader, decodeHeader, decodeMembers_encoded (index m)]
  · intro k
    rw [index_foldl_assign]
    by_cases h : k ∈ sortedKeys m
    · simp [h]
    · rw [if_neg h]
      rw [mem_sortedKeys] at h
      rw [index_of_not_mem m k h]
      rfl

theorem foldName_SortBy : foldName "SortBy" = "SORTBY" := by decide
theorem foldName_SortOrder : foldName "SortOrder" = "SORTORDER" := by decide
theorem foldName_ItemsToGet : foldName "ItemsToGet" = "ITEMSTOGET" := by decide
theorem foldName_DistributedTracePayload :
    foldName "DistributedTracePayload" = "DISTRIBUTEDTRACEPAYLOAD" := by decide

/-- Decoding an object with the four members: the scalar fields come back as written, and
the header set is what `decodeHeader` makes of the last member. -/
theorem Unmarshal_obj (sortBy sortOrder : String) (n : Int) (doc : Json) (h : Header)
    (hn : -(2 : Int) ^ 63 ≤ n ∧ n < (2 : Int) ^ 63)
    (hdec : decodeHeader none doc = .ok h) :
    Unmarshal (.obj [("SortBy", .str sortBy), ("SortOrder", .str sortOrder),
      ("ItemsToGet", .int n), ("DistributedTracePayload", doc)]) =
        .ok ⟨sortBy, sortOrder, n, h⟩ := by
  have hn1 : -9223372036854775808 ≤ n ∧ n < 9223372036854775808 := by
    simpa using hn
  simp only [Unmarshal, decodeFields, decodeField, foldName_SortBy, foldName_SortOrder,
    foldName_ItemsToGet, foldName_DistributedTracePayload, decodeString, decodeInt]
  simp [hn1, hdec]

/-- Decoding what the caller encodes: the three scalar fields come back as written and the
header set comes back with the same binding for every key. -/
theorem Unmarshal_Marshal (sortBy sortOrder : String) (n : Int) (m : HeaderMap)
    (hn : -(2 : Int) ^ 63 ≤ n ∧ n < (2 : Int) ^ 63) :
    ∃ doc m1, Marshal ⟨sortBy, sortOrder, n, some m⟩ = .ok doc ∧
      Unmarshal doc = .ok ⟨sortBy, sortOrder, n, some m1⟩ ∧
      ∀ k, index m1 k = index m k := by
  obtain ⟨m1, hdec, hidx⟩ := decodeHeader_encodeHeader m
  exact ⟨_, m1, rfl, Unmarshal_obj sortBy sortOrder n _ _ hn hdec, hidx⟩

/-- The encoder has no failing case: every request has a document. -/
theorem Marshal_ok (r : Caller.getItemsRequest) : ∃ doc, Marshal r = .ok doc :=
  ⟨_, rfl⟩

end Json

/-! ## Lemmas on the handlers -/

namespace Http

theorem canonical_Traceparent : CanonicalMIMEHeaderKey "Traceparent" = "Traceparent" := by
  decide

theorem canonical_Tracestate : CanonicalMIMEHeaderKey "Tracestate" = "Tracestate" := by
  decide

theorem Get_congr (m m1 : HeaderMap) (h : ∀ k, index m1 k = index m k) (key : String) :
    Get (some m1) key = Get (some m) key := by
  simp only [Get, h]

theorem Get_of_index (m : HeaderMap) (key v : String)
    (h : index m (CanonicalMIMEHeaderKey key) = some [v]) : Get (some m) key = v := by
  simp [Get, h, elems]

theorem Get_eq_headD_Values (h : Header) (key : String) :
    Get h key = (Values h key).headD "" := by
  cases h with
  | none => rfl
  | some m =>
    simp only [Get, Values]
    cases elems (index m (CanonicalMIMEHeaderKey key)) <;> rfl

theorem index_accepted_Traceparent (tp ts : String) :
    index (acceptedHeaders tp ts) "Traceparent" = some [tp] := by
  simp [acceptedHeaders, Http.Set, index_assign, canonical_Traceparent, canonical_Tracestate,
    newrelic.DistributedTraceW3CTraceParentHeader, newrelic.DistributedTraceW3CTraceStateHeader]

theorem index_accepted_Tracestate (tp ts : String) :
    index (acceptedHeaders tp ts) "Tracestate" = some [ts] := by
  simp [acceptedHeaders, Http.Set, index_assign, canonical_Tracestate,
    newrelic.DistributedTraceW3CTraceStateHeader]

end Http

namespace Callee

open Http newrelic

theorem effects_with_txn (txn : Transaction) (items : getItemsRequest) :
    (handler ⟨some txn⟩ items).effects =
      [.RecordCustomEvent "MyGoEvent" [("zip", "zap")],
       .AcceptDistributedTraceHeaders .TransportOther
         (some (acceptedHeaders (Get items.DistributedTracePayload "Traceparent")
           (Get items.DistributedTracePayload "Tracestate"))),
       .Info (.text "Accepted Distributed Tracing Payload"),
       .StartSegment "goToSleep",
       .Info (.text "Going to sleep....yawn"),
       .Sleep 1,
       .Info (.text "Woke up....yawn"),
       .SegmentEnd "goToSleep",
       .InsertDistributedTraceHeaders
         (acceptedHeaders (Get items.DistributedTracePayload "Traceparent")
           (Get items.DistributedTracePayload "Tracestate")),
       .AddAttribute "ItemsToGet" (.int items.ItemsToGet)] := rfl

theorem result_eq (ctx : Context) (items : getItemsRequest) :
    (handler ctx items).result = .ok ("Success!", none) := by
  rcases ctx with ⟨_ | txn⟩ <;> rfl

end Callee

namespace Caller

open Http newrelic

theorem effects_send_ok (marshal : getItemsRequest → Except String Json) (statusCode : Int)
    (txn : Transaction) (payload : Json) (h : marshal (builtRequest txn) = .ok payload) :
    (handlerWith marshal ⟨none, none, statusCode⟩ ⟨some txn⟩).effects =
      [.RecordCustomEvent "MyGoEvent" [("zip", "zap")],
       .NewSession,
       .InstrumentHandlers,
       .Info (.text "Inserting Distributed Trace headers for context propagation"),
       .InsertDistributedTraceHeaders [],
       .Info (.headers (txn.insert [])),
       .Info (.text "Invoking lambda function: newrelic-example-go1"),
       .InvokeRequest (builtInput payload),
       .Send (builtInput payload),
       .Info (.text ("Request Complete, Got StatusCode: " ++ toString statusCode)),
       .AddAttribute "customAttribute" (.str "customAttributeValue")] := by
  unfold builtRequest at h
  simp [handlerWith, FromContext, h, bind, Exec.bind, Exec.emit, pure, Exec.pure, builtInput]

theorem effects_send_err (marshal : getItemsRequest → Except String Json) (statusCode : Int)
    (e : String) (txn : Transaction) (payload : Json)
    (h : marshal (builtRequest txn) = .ok payload) :
    (handlerWith marshal ⟨none, some e, statusCode⟩ ⟨some txn⟩).effects =
      [.RecordCustomEvent "MyGoEvent" [("zip", "zap")],
       .NewSession,
       .InstrumentHandlers,
       .Info (.text "Inserting Distributed Trace headers for context propagation"),
       .InsertDistributedTraceHeaders [],
       .Info (.headers (txn.insert [])),
       .Info (.text "Invoking lambda function: newrelic-example-go1"),
       .InvokeRequest (builtInput payload),
       .Send (builtInput payload),
       .AddAttribute "customAttribute" (.str "customAttributeValue")] := by
  unfold builtRequest at h
  simp [handlerWith, FromContext, h, bind, Exec.bind, Exec.emit, pure, Exec.pure, builtInput]

theorem effects_marshal_err (marshal : getItemsRequest → Except String Json) (env : Env)
    (e : String) (txn : Transaction) (hs : env.sessionErr = none)
    (h : marshal (builtRequest txn) = .error e) :
    (handlerWith marshal env ⟨some txn⟩).effects =
      [.RecordCustomEvent "MyGoEvent" [("zip", "zap")],
       .NewSession,
       .InstrumentHandlers,
       .Info (.text "Inserting Distributed Trace headers for context propagation"),
       .InsertDistributedTraceHeaders [],
       .Info (.headers (txn.insert [])),
       .Println "Error marshalling MyGetItemsFunction request"] ∧
    (handlerWith marshal env ⟨some txn⟩).result = .error (.exit 0) := by
  unfold builtRequest at h
  simp [handlerWith, FromContext, h, hs, bind, Exec.bind, Exec.emit, pure, Exec.pure, Exec.halt]

theorem effects_session_err (marshal : getItemsRequest → Except String Json) (env : Env)
    (e : String) (txn : Transaction) (hs : env.sessionErr = some e) :
    (handlerWith marshal env ⟨some txn⟩).effects =
      [.RecordCustomEvent "MyGoEvent" [("zip", "zap")], .NewSession] ∧
    (handlerWith marshal env ⟨some txn⟩).result = .error (.panic e) := by
  simp [handlerWith, FromContext, hs, bind, Exec.bind, Exec.emit, pure, Exec.pure, Exec.halt]

theorem effects_no_txn (marshal : getItemsRequest → Except String Json) (env : Env) :
    (handlerWith marshal env ⟨none⟩).effects = [] ∧
    (handlerWith marshal env ⟨none⟩).result = .ok ("Success!", none) := by
  simp [handlerWith, FromContext, bind, Exec.bind, pure, Exec.pure]

theorem result_sent (marshal : getItemsRequest → Except String Json)
    (sendErr : Option String) (statusCode : Int)
    (txn : Transaction) (payload : Json) (h : marshal (builtRequest txn) = .ok payload) :
    (handlerWith marshal ⟨none, sendErr, statusCode⟩ ⟨some txn⟩).result =
      .ok ("Success!", none) := by
  unfold builtRequest at h
  cases sendErr <;>
  simp [handlerWith, FromContext, h, bind, Exec.bind, Exec.emit, pure, Exec.pure]

/-- With `json.Marshal` as the encoder the branch for an encoding error is never taken: no
invocation ends in `os.Exit`. -/
theorem handler_never_exits (env : Env) (ctx : Context) (code : Int) :
    (handler env ctx).result ≠ .error (.exit code) := by
  rcases ctx with ⟨_ | txn⟩
  · rw [handler, (effects_no_txn Json.Marshal env).2]
    simp
  · rcases env with ⟨_ | s, sendErr, statusCode⟩
    · rw [handler, result_sent Json.Marshal sendErr statusCode txn _ rfl]
      simp
    · rw [handler, (effects_session_err Json.Marshal ⟨some s, sendErr, statusCode⟩ s txn rfl).2]
      simp

end Caller

/-! ## The claims -/

open Http newrelic

/-- C1: one hop end to end.  When the header set `H` emitted by the caller's transaction
binds `Traceparent` and `Tracestate` to one value each, the caller dispatches exactly one
invocation, whose payload is the encoding of the request built around `H`; the callee
decodes that payload, and the header set its handler hands to
`AcceptDistributedTraceHeaders` has the `Traceparent` and the `Tracestate` of `H`. -/
theorem trace_context_crosses_one_hop (sendErr : Option String) (statusCode : Int)
    (txn calleeTxn : Transaction) (tp ts : String)
    (htp : index (txn.insert []) "Traceparent" = some [tp])
    (hts : index (txn.insert []) "Tracestate" = some [ts]) :
    ∃ input items hdrs,
      sent (Caller.handler ⟨none, sendErr, statusCode⟩ ⟨some txn⟩).effects = [input] ∧
      Json.Marshal ⟨"time", "descending", 10, some (txn.insert [])⟩ = .ok input.Payload ∧
      Json.Unmarshal input.Payload = .ok items ∧
      accepted (Callee.handler ⟨some calleeTxn⟩ items).effects = [hdrs] ∧
      Get hdrs "Traceparent" = tp ∧ Get hdrs "Tracestate" = ts ∧
      Get (some (txn.insert [])) "Traceparent" = tp ∧
      Get (some (txn.insert [])) "Tracestate" = ts := by
  obtain ⟨doc, m1, hdoc, hun, hidx⟩ :=
    Json.Unmarshal_Marshal "time" "descending" 10 (txn.insert []) (by decide)
  have hH1 : Get (some (txn.insert [])) "Traceparent" = tp :=
    Get_of_index _ _ _ (by rw [canonical_Traceparent]; exact htp)
  have hH2 : Get (some (txn.insert [])) "Tracestate" = ts :=
    Get_of_index _ _ _ (by rw [canonical_Tracestate]; exact hts)
  have h1 : Get (some m1) "Traceparent" = tp := by rw [Get_congr _ _ hidx]; exact hH1
  have h2 : Get (some m1) "Tracestate" = ts := by rw [Get_congr _ _ hidx]; exact hH2
  refine ⟨Caller.builtInput doc, ⟨"time", "descending", 10, some m1⟩,
    some (acceptedHeaders tp ts), ?_, hdoc, hun, ?_, ?_, ?_, hH1, hH2⟩
  · cases sendErr with
    | none =>
      rw [Caller.handler, Caller.effects_send_ok Json.Marshal statusCode txn doc hdoc]
      rfl
    | some e =>
      rw [Caller.handler, Caller.effects_send_err Json.Marshal statusCode e txn doc hdoc]
      rfl
  · rw [Callee.effects_with_txn]
    simp only [accepted, h1, h2]
  · exact Get_of_index _ _ _ (by rw [canonical_Traceparent]; exact index_accepted_Traceparent tp ts)
  · exact Get_of_index _ _ _ (by rw [canonical_Tracestate]; exact index_accepted_Tracestate tp ts)

/-- Instance of C1 at `sampleTxn`, with a failing send. -/
theorem trace_context_crosses_one_hop_witness :
    index (sampleTxn.insert []) "Traceparent" =
        some ["00-0af7651916cd43dd8448eb211c80319c-b7ad6b7169203331-01"] ∧
      index (sampleTxn.insert []) "Tracestate" = some ["190@nr=0-0-1-2-b7ad6b7169203331"] ∧
      ∃ input items hdrs,
        sent (Caller.handler ⟨none, some "timeout", 0⟩ ⟨some sampleTxn⟩).effects = [input] ∧
        Json.Marshal ⟨"time", "descending", 10, some (sampleTxn.insert [])⟩ = .ok input.Payload ∧
        Json.Unmarshal input.Payload = .ok items ∧
        accepted (Callee.handler ⟨some silentTxn⟩ items).effects = [hdrs] ∧
        Get hdrs "Traceparent" = "00-0af7651916cd43dd8448eb211c80319c-b7ad6b7169203331-01" ∧
        Get hdrs "Tracestate" = "190@nr=0-0-1-2-b7ad6b7169203331" ∧
        Get (some (sampleTxn.insert [])) "Traceparent" =
          "00-0af7651916cd43dd8448eb211c80319c-b7ad6b7169203331-01" ∧
        Get (some (sampleTxn.insert [])) "Tracestate" = "190@nr=0-0-1-2-b7ad6b7169203331" :=
  ⟨by decide, by decide,
    trace_context_crosses_one_hop (some "timeout") 0 sampleTxn silentTxn _ _
      (by decide) (by decide)⟩

/-- C2: once the session is built, the caller handler returns `("Success!", nil)` in every
invocation context, with or without a transaction, and for every outcome of `Send`
(no error, or any error) and every status code. -/
theorem caller_returns_success (ctx : Context) (sendErr : Option String) (statusCode : Int) :
    (Caller.handler ⟨none, sendErr, statusCode⟩ ctx).result = .ok ("Success!", none) := by
  rcases ctx with ⟨_ | txn⟩
  · exact (Caller.effects_no_txn Json.Marshal _).2
  · exact Caller.result_sent Json.Marshal sendErr statusCode txn _ rfl

/-- C3 fails: with a transaction and a failing send, every attribute and every log entry
of the run also occurs in the run whose send succeeds, so none is produced because of the
error. -/
theorem send_error_not_recorded :
    (∀ a ∈ attributes (Caller.handler ⟨none, some "timeout", 0⟩ ⟨some sampleTxn⟩).effects,
        a ∈ attributes (Caller.handler ⟨none, none, 202⟩ ⟨some sampleTxn⟩).effects) ∧
      (∀ l ∈ logEntries (Caller.handler ⟨none, some "timeout", 0⟩ ⟨some sampleTxn⟩).effects,
        l ∈ logEntries (Caller.handler ⟨none, none, 202⟩ ⟨some sampleTxn⟩).effects) := by
  rw [Caller.handler, Caller.handler,
    Caller.effects_send_err Json.Marshal 0 "timeout" sampleTxn _ rfl,
    Caller.effects_send_ok Json.Marshal 202 sampleTxn _ rfl]
  simp only [attributes, logEntries]
  refine ⟨fun a ha => ha, fun l hl => ?_⟩
  simp only [List.mem_cons, List.mem_singleton, List.not_mem_nil, or_false] at hl ⊢
  rcases hl with h | h | h
  · exact Or.inl h
  · exact Or.inr (Or.inl h)
  · exact Or.inr (Or.inr (Or.inl h))

/-- C3 as amended: with a transaction, a failing send changes the recorded telemetry in one
way only: the log entry "Request Complete" of the successful run is missing.  The attributes
are the same in both runs (the one attribute `customAttribute`), and the log entries of the
failing run are those of the successful run without its last one. -/
theorem send_error_only_drops_log (txn : Transaction) (e : String) (statusCode okCode : Int) :
    attributes (Caller.handler ⟨none, some e, statusCode⟩ ⟨some txn⟩).effects =
        [("customAttribute", .str "customAttributeValue")] ∧
      attributes (Caller.handler ⟨none, none, okCode⟩ ⟨some txn⟩).effects =
        [("customAttribute", .str "customAttributeValue")] ∧
      logEntries (Caller.handler ⟨none, none, okCode⟩ ⟨some txn⟩).effects =
        logEntries (Caller.handler ⟨none, some e, statusCode⟩ ⟨some txn⟩).effects ++
          [.text ("Request Complete, Got StatusCode: " ++ toString okCode)] := by
  rw [Caller.handler, Caller.handler,
    Caller.effects_send_err Json.Marshal statusCode e txn _ rfl,
    Caller.effects_send_ok Json.Marshal okCode txn _ rfl]
  exact ⟨rfl, rfl, rfl⟩

/-- C4: when the inbound `DistributedTracePayload` is nil, empty, or holds neither
`Traceparent` nor `Tracestate`, the callee handler returns `("Success!", nil)` in every
context, and with a transaction it hands `AcceptDistributedTraceHeaders` one header set,
whose `Traceparent` and `Tracestate` are both the empty string (each key is bound to the
single value `""`). -/
theorem callee_accepts_missing_context (ctx : Context) (items : Callee.getItemsRequest)
    (h : items.DistributedTracePayload = none ∨ items.DistributedTracePayload = some [] ∨
      ∃ m, items.DistributedTracePayload = some m ∧
        m.lookup "Traceparent" = none ∧ m.lookup "Tracestate" = none) :
    (Callee.handler ctx items).result = .ok ("Success!", none) ∧
      (∀ hdrs ∈ accepted (Callee.handler ctx items).effects,
        Get hdrs "Traceparent" = "" ∧ Get hdrs "Tracestate" = "" ∧
        Values hdrs "Traceparent" = [""] ∧ Values hdrs "Tracestate" = [""]) ∧
      (∀ txn, ctx.txn = some txn →
        ∃ hdrs, accepted (Callee.handler ctx items).effects = [hdrs]) := by
  have hget : Get items.DistributedTracePayload "Traceparent" = "" ∧
      Get items.DistributedTracePayload "Tracestate" = "" := by
    rcases h with h | h | ⟨m, h, h1, h2⟩
    · rw [h]; exact ⟨rfl, rfl⟩
    · rw [h]; exact ⟨rfl, rfl⟩
    · rw [h]
      simp [Get, index, canonical_Traceparent, canonical_Tracestate, h1, h2, elems]
  refine ⟨Callee.result_eq ctx items, ?_, ?_⟩
  · rcases ctx with ⟨_ | txn⟩
    · intro hdrs hmem
      have : accepted (Callee.handler ⟨none⟩ items).effects = [] := rfl
      rw [this] at hmem
      cases hmem
    · intro hdrs hmem
      rw [Callee.effects_with_txn] at hmem
      simp only [accepted, List.mem_singleton] at hmem
      subst hmem
      rw [hget.1, hget.2]
      refine ⟨Get_of_index _ _ _
          (by rw [canonical_Traceparent]; exact index_accepted_Traceparent "" ""),
        Get_of_index _ _ _
          (by rw [canonical_Tracestate]; exact index_accepted_Tracestate "" ""), ?_, ?_⟩
      · simp only [Values, canonical_Traceparent, index_accepted_Traceparent, elems]
      · simp only [Values, canonical_Tracestate, index_accepted_Tracestate, elems]
  · intro txn htxn
    rcases ctx with ⟨c⟩
    simp only at htxn
    subst htxn
    rw [Callee.effects_with_txn]
    exact ⟨_, rfl⟩

/-- Instance of C4: a payload that holds only the proprietary `Newrelic` header. -/
theorem callee_accepts_missing_context_witness :
    (Callee.handler ⟨some silentTxn⟩
        ⟨"time", "descending", 10, some [("Newrelic", some ["eyJ2IjpbMCwxXX0="])]⟩).result =
      .ok ("Success!", none) ∧
    (∀ hdrs ∈ accepted (Callee.handler ⟨some silentTxn⟩
        ⟨"time", "descending", 10, some [("Newrelic", some ["eyJ2IjpbMCwxXX0="])]⟩).effects,
      Get hdrs "Traceparent" = "" ∧ Get hdrs "Tracestate" = "" ∧
      Values hdrs "Traceparent" = [""] ∧ Values hdrs "Tracestate" = [""]) ∧
    (∀ txn, (⟨some silentTxn⟩ : Context).txn = some txn →
      ∃ hdrs, accepted (Callee.handler ⟨some silentTxn⟩
        ⟨"time", "descending", 10, some [("Newrelic", some ["eyJ2IjpbMCwxXX0="])]⟩).effects =
          [hdrs]) :=
  callee_accepts_missing_context ⟨some silentTxn⟩
    ⟨"time", "descending", 10, some [("Newrelic", some ["eyJ2IjpbMCwxXX0="])]⟩
    (Or.inr (Or.inr ⟨_, rfl, by decide, by decide⟩))

/-- C5: in every callee invocation with a transaction, exactly one effect is a call of
`AcceptDistributedTraceHeaders`, a segment is started, and the accept call comes before the
first `StartSegment`. -/
theorem callee_accepts_once_before_segment (txn : Transaction)
    (items : Callee.getItemsRequest) :
    (Callee.handler ⟨some txn⟩ items).effects.countP isAccept = 1 ∧
      (Callee.handler ⟨some txn⟩ items).effects.findIdx isAccept <
        (Callee.handler ⟨some txn⟩ items).effects.findIdx isStartSegment ∧
      (Callee.handler ⟨some txn⟩ items).effects.findIdx isStartSegment <
        (Callee.handler ⟨some txn⟩ items).effects.length := by
  rw [Callee.effects_with_txn]
  refine ⟨rfl, ?_, ?_⟩
  · show 1 < 3
    decide
  · show 3 < 10
    decide

/-- C6: in every caller invocation with a transaction (session built), the emission is a
single call of `InsertDistributedTraceHeaders` on the empty header set, exactly one
invocation is sent, the member `DistributedTracePayload` of its payload is the encoding of
the header set that this transaction emitted into the empty one, and the emission comes
before the send.  The payload carries that header set and no other: its member decodes to
a header set with the binding of the emitted one for every key, and the callee decodes the
whole payload to the request holding it. -/
theorem caller_payload_carries_emitted_context (txn : Transaction) (sendErr : Option String)
    (statusCode : Int) :
    (Caller.handler ⟨none, sendErr, statusCode⟩ ⟨some txn⟩).effects.filter isInsert =
        [.InsertDistributedTraceHeaders []] ∧
      (∃ input,
        sent (Caller.handler ⟨none, sendErr, statusCode⟩ ⟨some txn⟩).effects = [input] ∧
        Json.Marshal ⟨"time", "descending", 10, some (txn.insert [])⟩ = .ok input.Payload ∧
        Json.member "DistributedTracePayload" input.Payload =
          some (Json.encodeHeader (some (txn.insert []))) ∧
        ∃ doc m1,
          Json.member "DistributedTracePayload" input.Payload = some doc ∧
          Json.decodeHeader none doc = .ok (some m1) ∧
          (∀ k, index m1 k = index (txn.insert []) k) ∧
          (∀ key, Get (some m1) key = Get (some (txn.insert [])) key) ∧
          (∀ key, Values (some m1) key = Values (some (txn.insert [])) key) ∧
          Json.Unmarshal input.Payload = .ok ⟨"time", "descending", 10, some m1⟩) ∧
      (Caller.handler ⟨none, sendErr, statusCode⟩ ⟨some txn⟩).effects.findIdx isInsert <
        (Caller.handler ⟨none, sendErr, statusCode⟩ ⟨some txn⟩).effects.findIdx isSend ∧
      (Caller.handler ⟨none, sendErr, statusCode⟩ ⟨some txn⟩).effects.findIdx isSend <
        (Caller.handler ⟨none, sendErr, statusCode⟩ ⟨some txn⟩).effects.length := by
  obtain ⟨m1, hdec, hidx⟩ := Json.decodeHeader_encodeHeader (txn.insert [])
  have hun : Json.Unmarshal (Caller.builtPayload txn) =
      .ok ⟨"time", "descending", 10, some m1⟩ :=
    Json.Unmarshal_obj "time" "descending" 10 _ _ (by decide) hdec
  have hcarry : ∃ doc m2,
      Json.member "DistributedTracePayload" (Caller.builtInput (Caller.builtPayload txn)).Payload =
        some doc ∧
      Json.decodeHeader none doc = .ok (some m2) ∧
      (∀ k, index m2 k = index (txn.insert []) k) ∧
      (∀ key, Get (some m2) key = Get (some (txn.insert [])) key) ∧
      (∀ key, Values (some m2) key = Values (some (txn.insert [])) key) ∧
      Json.Unmarshal (Caller.builtInput (Caller.builtPayload txn)).Payload =
        .ok ⟨"time", "descending", 10, some m2⟩ :=
    ⟨_, m1, rfl, hdec, hidx, fun key => Get_congr _ _ hidx key,
      fun key => by simp only [Values, hidx], hun⟩
  cases sendErr with
  | none =>
    rw [Caller.handler, Caller.effects_send_ok Json.Marshal statusCode txn _ rfl]
    refine ⟨rfl, ⟨Caller.builtInput (Caller.builtPayload txn), rfl, rfl, rfl, hcarry⟩, ?_, ?_⟩
    · show 4 < 8
      decide
    · show 8 < 11
      decide
  | some e =>
    rw [Caller.handler, Caller.effects_send_err Json.Marshal statusCode e txn _ rfl]
    refine ⟨rfl, ⟨Caller.builtInput (Caller.builtPayload txn), rfl, rfl, rfl, hcarry⟩, ?_, ?_⟩
    · show 4 < 8
      decide
    · show 8 < 10
      decide

/-- C7 fails: with `sampleTxn` the payload sent has the four keys, but the value of
`Traceparent` inside `DistributedTracePayload` is an array holding a string, not a string. -/
theorem payload_header_values_are_arrays :
    ∃ input, sent (Caller.handler ⟨none, none, 202⟩ ⟨some sampleTxn⟩).effects = [input] ∧
      ¬ specPayloadShape input.Payload := by
  refine ⟨Caller.builtInput (Caller.builtPayload sampleTxn), ?_, ?_⟩
  · rw [Caller.handler, Caller.effects_send_ok Json.Marshal 202 sampleTxn _ rfl]
    rfl
  · rintro ⟨ms, hdoc, hstr⟩
    have hms : ms = (Json.sortedKeys (sampleTxn.insert [])).map
        (fun k => (k, Json.encodeSlice (index (sampleTxn.insert []) k))) := by
      simp only [Caller.builtInput, Caller.builtPayload, Json.encodeHeader, Json.obj.injEq,
        List.cons.injEq, Prod.mk.injEq, true_and, and_true] at hdoc
      exact hdoc.symm
    have hkeys : Json.sortedKeys (sampleTxn.insert []) = ["Traceparent", "Tracestate"] := by
      decide
    rw [hkeys] at hms
    have hmem : (("Traceparent", Json.encodeSlice (index (sampleTxn.insert []) "Traceparent")) :
        String × Json) ∈ ms := by
      rw [hms]; simp
    obtain ⟨s, hs⟩ := hstr _ hmem
    have hidx : index (sampleTxn.insert []) "Traceparent" =
        some ["00-0af7651916cd43dd8448eb211c80319c-b7ad6b7169203331-01"] := by decide
    rw [hidx] at hs
    simp [Json.encodeSlice] at hs

/-- C7 as amended: the payload sent is a JSON object with exactly the members `SortBy`
(the string "time"), `SortOrder` (the string "descending"), `ItemsToGet` (the integer 10)
and `DistributedTracePayload`, in this order; the last is an object with one member per key
of the emitted header set, whose value encodes the slice bound to the key: an array of
strings, or `null` for a nil slice. -/
theorem payload_shape (txn : Transaction) (sendErr : Option String) (statusCode : Int) :
    ∃ input ms,
      sent (Caller.handler ⟨none, sendErr, statusCode⟩ ⟨some txn⟩).effects = [input] ∧
      input.Payload = .obj [("SortBy", .str "time"), ("SortOrder", .str "descending"),
        ("ItemsToGet", .int 10), ("DistributedTracePayload", .obj ms)] ∧
      (∀ k, k ∈ ms.map Prod.fst ↔ k ∈ (txn.insert []).map Prod.fst) ∧
      (∀ kv ∈ ms, kv.2 = Json.encodeSlice (index (txn.insert []) kv.1) ∧
        (kv.2 = .null ∨ ∃ xs : List String, kv.2 = .arr (xs.map .str))) := by
  refine ⟨Caller.builtInput (Caller.builtPayload txn), (Json.sortedKeys (txn.insert [])).map
      (fun k => (k, Json.encodeSlice (index (txn.insert []) k))), ?_, rfl, ?_, ?_⟩
  · cases sendErr with
    | none =>
      rw [Caller.handler, Caller.effects_send_ok Json.Marshal statusCode txn _ rfl]
      rfl
    | some e =>
      rw [Caller.handler, Caller.effects_send_err Json.Marshal statusCode e txn _ rfl]
      rfl
  · intro k
    rw [List.map_map, ← Json.mem_sortedKeys]
    simp [Function.comp_def]
  · intro kv hkv
    rw [List.mem_map] at hkv
    obtain ⟨k, _, rfl⟩ := hkv
    refine ⟨rfl, ?_⟩
    cases index (txn.insert []) k with
    | none => exact Or.inl rfl
    | some xs => exact Or.inr ⟨xs, rfl⟩

/-- C8 fails: an inbound payload that holds two `Tracestate` values reaches
`AcceptDistributedTraceHeaders` with the first one only. -/
theorem second_tracestate_value_dropped :
    ∃ hdrs ∈ accepted (Callee.handler ⟨some silentTxn⟩ twoStateRequest).effects,
      Values hdrs "Tracestate" = ["congo=t61rcWkgMzE"] ∧
      Values twoStateRequest.DistributedTracePayload "Tracestate" =
        ["congo=t61rcWkgMzE", "rojo=00f067aa0ba902b7"] ∧
      Values hdrs "Tracestate" ≠
        Values twoStateRequest.DistributedTracePayload "Tracestate" := by
  refine ⟨some (acceptedHeaders (Get twoStateRequest.DistributedTracePayload "Traceparent")
    (Get twoStateRequest.DistributedTracePayload "Tracestate")), ?_, ?_, ?_, ?_⟩
  · rw [Callee.effects_with_txn]
    simp [accepted]
  · decide
  · decide
  · decide

/-- C8 as amended: in every callee invocation with a transaction, the header set handed
to `AcceptDistributedTraceHeaders` holds exactly one `Tracestate` value, the first inbound
one (the empty string when there is none); the accepted list therefore equals the inbound list
exactly when the inbound payload holds exactly one `Tracestate` value. -/
theorem callee_passes_first_tracestate (txn : Transaction) (items : Callee.getItemsRequest) :
    ∃ hdrs, accepted (Callee.handler ⟨some txn⟩ items).effects = [hdrs] ∧
      Values hdrs "Tracestate" =
        [(Values items.DistributedTracePayload "Tracestate").headD ""] ∧
      (Values hdrs "Tracestate" = Values items.DistributedTracePayload "Tracestate" ↔
        (Values items.DistributedTracePayload "Tracestate").length = 1) := by
  have hv : Values (some (acceptedHeaders (Get items.DistributedTracePayload "Traceparent")
      (Get items.DistributedTracePayload "Tracestate"))) "Tracestate" =
      [(Values items.DistributedTracePayload "Tracestate").headD ""] := by
    have h1 : ∀ a b : String, Values (some (acceptedHeaders a b)) "Tracestate" = [b] := by
      intro a b
      simp only [Values, canonical_Tracestate, index_accepted_Tracestate, elems]
    rw [h1, Get_eq_headD_Values _ "Tracestate"]
  refine ⟨_, by rw [Callee.effects_with_txn]; rfl, hv, ?_⟩
  rw [hv]
  cases Values items.DistributedTracePayload "Tracestate" with
  | nil => simp
  | cons v vs =>
    cases vs with
    | nil => simp
    | cons v1 vs1 => simp

/-- C9 fails: in both programs, when `NewApplication` returns an error, `main` still
calls `nrlambda.Start`, with the nil application. -/
theorem main_starts_after_config_error :
    Startup.Start none ∈ Caller.main ⟨none, some "license key is missing"⟩ ∧
      Startup.Start none ∈ Callee.main ⟨none, some "license key is missing"⟩ := by
  decide

/-- C9 as amended: in both programs `main` always ends by calling `nrlambda.Start` with
the application `NewApplication` handed back; an initialisation error only adds one printed
line before that call. -/
theorem main_always_starts (app : Option Application) (e : String) :
    Caller.main ⟨app, none⟩ = [.Start app] ∧
      Caller.main ⟨app, some e⟩ =
        [.Println ("error creating app (invalid config): " ++ e), .Start app] ∧
      Callee.main ⟨app, none⟩ = [.Start app] ∧
      Callee.main ⟨app, some e⟩ =
        [.Println ("error creating app (invalid config): " ++ e), .Start app] :=
  ⟨rfl, rfl, rfl, rfl⟩
